import Mathlib

/-!
Verification development for the GitHub statistics SVG generator
(`github_stats/generate.py` and `github_stats.py`).

The Python code is shallowly embedded: byte sizes and commit counts are
natural numbers, Python float quantities (bar widths, percentages, dot
thresholds) are modelled as rationals, and angles are tracked as the
rational fraction of a full circle computed by the code (the radian value
is recovered by multiplying with `2 * Real.pi`).  Python exceptions
(`ZeroDivisionError` in `create_legend`, the exceptions raised by
`get_github_data`) are modelled with `Option` / `Except`.
-/

namespace GithubStats

/-! ## Data model

`RawRepo` mirrors one node of the GraphQL response consumed by
`create_svg`: name, `isPrivate`, the resolvable default-branch history
count (`none` when `defaultBranchRef` or its `target` is null), and the
ordered list of language edges. -/

structure LangEdge where
  name : String
  size : Nat
  color : String
deriving Repr, DecidableEq

structure RawRepo where
  name : String
  isPrivate : Bool
  defaultBranchHistory : Option Nat
  edges : List LangEdge
deriving Repr, DecidableEq

/-- One entry of the `language_stats` dictionary / the `languages` array of
`create_svg`: aggregation key, accumulated size, last written color. -/
structure Language where
  name : String
  size : Nat
  color : String
deriving Repr, DecidableEq

/-- One entry of the `processed_repos` list built by `create_svg`. -/
structure PRepo where
  name : String
  commit_count : Nat
  size : Nat
  isPrivate : Bool
deriving Repr, DecidableEq

/-- The resolved configuration used by `create_svg`
(`excluded_languages` and `excluded_repositories` from `load_config`). -/
structure ExclusionConfig where
  excludedLanguages : List String
  excludedRepositories : List String
deriving Repr, DecidableEq

/-- The default configuration literal from `load_config`. -/
def defaultConfig : ExclusionConfig :=
  { excludedLanguages := ["html", "css", "dockerfile", "makefile", "shell"]
    excludedRepositories := ["zenn-posts", "kengo-k", "*example"] }

/-! ## Python `fnmatch` (POSIX)

`create_svg` excludes repositories with
`any(fnmatch.fnmatch(repo["name"], pattern) for pattern in excluded_repositories)`.
On POSIX `os.path.normcase` is the identity, so `fnmatch.fnmatch` is
case-sensitive and matches the whole name against a glob pattern where
`*` matches any (possibly empty) sequence of characters, `?` matches any
single character, and `[seq]` / `[!seq]` match one character inside /
outside a set of characters and codepoint ranges; a `[` with no closing
`]` is a literal.  We embed `fnmatch.translate` as a token parser plus a
backtracking matcher. -/

inductive GlobTok where
  | star : GlobTok
  | question : GlobTok
  | lit : Char → GlobTok
  | cls : Bool → List (Char × Char) → GlobTok
deriving Repr, DecidableEq

/-- Scan for the closing `]` of a character class, returning the
characters before it and the rest of the pattern after it. -/
def findCloseAux : List Char → Option (List Char × List Char)
  | [] => none
  | c :: cs =>
    if c = ']' then some ([], cs)
    else
      match findCloseAux cs with
      | some (s, r) => some (c :: s, r)
      | none => none

/-- Parse the body of a `[...]` construct, `cs` being the characters after
the opening `[`.  Mirrors the scan in `fnmatch.translate`: an initial `!`
negates, a `]` directly after `[` (or after `[!`) belongs to the set, and
if no closing `]` exists the construct is not a class at all. -/
def scanClass (cs : List Char) : Option (Bool × List Char × List Char) :=
  let negated := cs.head? = some '!'
  let cs1 := if negated then cs.tail else cs
  match cs1 with
  | ']' :: rest =>
    match findCloseAux rest with
    | some (s, r) => some (decide negated, ']' :: s, r)
    | none => none
  | _ =>
    match findCloseAux cs1 with
    | some (s, r) => some (decide negated, s, r)
    | none => none

/-- Turn the raw characters of a class body into codepoint ranges, with
`a-b` denoting a range and a leading or trailing `-` a literal, as in the
regular-expression class emitted by `fnmatch.translate`. -/
def parseItems : List Char → List (Char × Char)
  | [] => []
  | a :: '-' :: b :: rest => (a, b) :: parseItems rest
  | a :: rest => (a, a) :: parseItems rest

/-- Tokenize a glob pattern.  The fuel argument starts at the length of
the pattern; every step consumes at least one character and one unit of
fuel, so the fuel is never exhausted before the pattern is. -/
def parseGlobAux : Nat → List Char → List GlobTok
  | 0, _ => []
  | _ + 1, [] => []
  | fuel + 1, '*' :: rest => .star :: parseGlobAux fuel rest
  | fuel + 1, '?' :: rest => .question :: parseGlobAux fuel rest
  | fuel + 1, '[' :: rest =>
    (match scanClass rest with
     | some (neg, stuff, rem) => .cls neg (parseItems stuff) :: parseGlobAux fuel rem
     | none => .lit '[' :: parseGlobAux fuel rest)
  | fuel + 1, c :: rest => .lit c :: parseGlobAux fuel rest

def parseGlob (pat : String) : List GlobTok :=
  parseGlobAux pat.length pat.toList

/-- Does character `d` match a (possibly negated) class? -/
def matchCls (negated : Bool) (items : List (Char × Char)) (d : Char) : Bool :=
  let inSet := items.any (fun p => p.1 ≤ d && d ≤ p.2)
  if negated then !inSet else inSet

/-- Backtracking matcher for a tokenized glob pattern against a name.
Structural recursion on a fuel argument keeps the definition reducible by
the kernel; every recursive call shrinks the combined length of the token
list and the name by at least one while consuming one unit of fuel, so a
call with fuel exceeding that combined length never runs out. -/
def globMatchAux : Nat → List GlobTok → List Char → Bool
  | 0, _, _ => false
  | _ + 1, [], [] => true
  | _ + 1, [], _ :: _ => false
  | fuel + 1, .star :: ts, [] => globMatchAux fuel ts []
  | fuel + 1, .star :: ts, c :: s =>
    globMatchAux fuel ts (c :: s) || globMatchAux fuel (.star :: ts) s
  | _ + 1, .question :: _, [] => false
  | fuel + 1, .question :: ts, _ :: s => globMatchAux fuel ts s
  | _ + 1, .lit _ :: _, [] => false
  | fuel + 1, .lit c :: ts, d :: s => c == d && globMatchAux fuel ts s
  | _ + 1, .cls _ _ :: _, [] => false
  | fuel + 1, .cls neg items :: ts, d :: s => matchCls neg items d && globMatchAux fuel ts s

def globMatch (ts : List GlobTok) (s : List Char) : Bool :=
  globMatchAux (ts.length + s.length + 1) ts s

/-- `fnmatch.fnmatch(name, pat)` on POSIX. -/
def fnmatch (name pat : String) : Bool :=
  globMatch (parseGlob pat) name.toList

/-- The repository-exclusion test of `create_svg`:
`any(fnmatch.fnmatch(repo["name"], pattern) for pattern in excluded_repositories)`. -/
def isRepositoryExcluded (name : String) (patterns : List String) : Bool :=
  patterns.any (fun pat => fnmatch name pat)

/-! ## Stable descending sort

Both files rank with Python `sorted(..., key=..., reverse=True)`, which is
a stable sort: entries are ordered by descending key and entries with
equal keys keep their original relative order.  We model it by the stable
descending insertion sort below; the theorems `sortDescBy_pairwise` and
`sortDescBy_filter_eq` establish exactly the two properties that
characterize the stable descending sort, so this definition agrees with
Python `sorted` extensionally. -/

def insertDescBy (key : α → Nat) (a : α) : List α → List α
  | [] => [a]
  | b :: bs => if key b ≤ key a then a :: b :: bs else b :: insertDescBy key a bs

def sortDescBy (key : α → Nat) (l : List α) : List α :=
  l.foldr (insertDescBy key) []

/-! ## Aggregation pass of `create_svg` (`generate.py` lines 236-278)

A single fold over the repository nodes mirroring the Python loop: an
excluded repository is skipped entirely; otherwise its non-excluded
language edges are folded into the insertion-ordered `language_stats`
association list (`size` accumulated, `color` overwritten), and a
`ProcessedRepository` entry is appended whose `size` sums all edges. -/

structure AggState where
  langs : List Language
  repos : List PRepo
deriving Repr, DecidableEq

/-- The `defaultdict` update
`language_stats[name]["size"] += size; language_stats[name]["color"] = color`:
update in place when the key exists, append a fresh entry otherwise
(insertion order preserved, as for a Python dict). -/
def addEdge : List Language → String → Nat → String → List Language
  | [], name, size, color => [⟨name, size, color⟩]
  | l :: rest, name, size, color =>
    if l.name = name then ⟨l.name, l.size + size, color⟩ :: rest
    else l :: addEdge rest name size color

/-- Python `str.lower()` restricted to the ASCII range handled by
`Char.toLower` (language names from the GitHub API are ASCII). -/
def pyLower (s : String) : String :=
  String.mk (s.data.map Char.toLower)

/-- Fold the language edges of one surviving repository into the stats,
skipping edges whose lower-cased language name is excluded.  Unrolls the
inner `for lang_edge in repo["languages"]["edges"]` loop one edge at a
time. -/
def foldEdges (excludedLanguages : List String) :
    List Language → List LangEdge → List Language
  | ls, [] => ls
  | ls, e :: rest =>
    foldEdges excludedLanguages
      (if excludedLanguages.contains (pyLower e.name) then ls
       else addEdge ls e.name e.size e.color)
      rest

/-- The commit count of a repository node:
`history.totalCount` when the default branch resolves, else 0. -/
def commitCountOf (r : RawRepo) : Nat :=
  r.defaultBranchHistory.getD 0

/-- The `ProcessedRepository` entry built for a surviving repository. -/
def mkProcessed (r : RawRepo) : PRepo :=
  { name := r.name
    commit_count := commitCountOf r
    size := (r.edges.map (fun e => e.size)).sum
    isPrivate := r.isPrivate }

/-- One iteration of the `for repo in repositories` loop of `create_svg`. -/
def processRepo (cfg : ExclusionConfig) (st : AggState) (r : RawRepo) : AggState :=
  if isRepositoryExcluded r.name cfg.excludedRepositories then st
  else
    { langs := foldEdges cfg.excludedLanguages st.langs r.edges
      repos := st.repos ++ [mkProcessed r] }

def aggregate (cfg : ExclusionConfig) (repos : List RawRepo) : AggState :=
  repos.foldl (processRepo cfg) ⟨[], []⟩

/-- The `language_stats` association list after the loop (insertion order). -/
def aggregateLanguages (cfg : ExclusionConfig) (repos : List RawRepo) : List Language :=
  (aggregate cfg repos).langs

/-- The `processed_repos` list after the loop. -/
def processedRepos (cfg : ExclusionConfig) (repos : List RawRepo) : List PRepo :=
  (aggregate cfg repos).repos

/-- The sorted `languages` array handed to the renderers
(`languages.sort(key=lambda x: x["size"], reverse=True)`). -/
def languagesOf (cfg : ExclusionConfig) (repos : List RawRepo) : List Language :=
  sortDescBy (fun l => l.size) (aggregateLanguages cfg repos)

/-! ## Renderers

The renderers build SVG fragments.  We embed each fragment structurally:
one record per visual element carrying exactly the data interpolated into
the markup, so that equality of the structures corresponds to equality of
the emitted bytes.  Python float division `a / b` raises
`ZeroDivisionError` when `b == 0`; where the code guards the denominator
we use plain rational division, where it does not (`create_legend`) we
use the fallible `pydiv`. -/

/-- Python float division, modelled over the rationals:
raises (`none`) exactly on a zero denominator. -/
def pydiv (a b : ℚ) : Option ℚ :=
  if b = 0 then none else some (a / b)

/-- One slice emitted by `create_pie_chart`.  The code computes
`angle = (lang["size"] / total_size) * 2 * math.pi` and accumulates
`start_angle`; we store the fractions of the full circle
(`startFrac = start_angle / 2π`, `endFrac = end_angle / 2π`) so the model
stays executable, and recover radians via `sliceAngle` below.  The
`large_arc` flag of the code is `angle > math.pi`, which is equivalent to
`endFrac - startFrac > 1/2`. -/
structure PieSlice where
  startFrac : ℚ
  endFrac : ℚ
  largeArc : Bool
  color : String
deriving Repr, DecidableEq

/-- The slice-emitting loop of `create_pie_chart`, carrying `start_angle`
(as a fraction of the circle) through the iterations. -/
def pieSlicesAux (total : Nat) : List Language → ℚ → List PieSlice
  | [], _ => []
  | l :: ls, start =>
    let frac : ℚ := (l.size : ℚ) / (total : ℚ)
    { startFrac := start
      endFrac := start + frac
      largeArc := decide ((1 : ℚ) / 2 < frac)
      color := l.color } :: pieSlicesAux total ls (start + frac)

/-- `create_pie_chart` (`generate.py` lines 145-172): returns the empty
fragment when the total size is zero, otherwise one slice per language in
order, drawn consecutively from angle 0. -/
def create_pie_chart (languages : List Language) : List PieSlice :=
  let total := (languages.map (fun l => l.size)).sum
  if total = 0 then [] else pieSlicesAux total languages 0

/-- The radian angle spanned by a slice. -/
noncomputable def sliceAngle (s : PieSlice) : ℝ :=
  ((s.endFrac - s.startFrac) : ℚ) * (2 * Real.pi)

/-- One legend row emitted by `create_legend`: language name, percentage
(`size / total * 100`), size in kilobytes (`size / 1024`), dot color. -/
structure LegendEntry where
  name : String
  percentage : ℚ
  sizeKB : ℚ
  color : String
deriving Repr, DecidableEq

/-- `create_legend` (`generate.py` lines 175-201): sums the sizes of ALL
languages, then renders the first 10 rows.  The percentage division is
NOT guarded, so a non-empty language list with zero total size raises
`ZeroDivisionError` (modelled by `none`). -/
def create_legend (languages : List Language) : Option (List LegendEntry) :=
  let total := (languages.map (fun l => l.size)).sum
  (languages.take 10).mapM
    (fun l =>
      (pydiv (l.size : ℚ) (total : ℚ)).map
        (fun p =>
          { name := l.name
            percentage := p * 100
            sizeKB := (l.size : ℚ) / 1024
            color := l.color }))

/-- One row emitted by `create_bar_chart`: repository name, bar width
`(commit_count / max_commits) * max_width`, the printed commit count and
size in kilobytes, and the private-lock flag. -/
structure BarEntry where
  name : String
  barWidth : ℚ
  commitCount : Nat
  sizeKB : ℚ
  isPrivate : Bool
deriving Repr, DecidableEq

/-- The row-emitting part of `create_bar_chart` applied to the already
sorted-and-truncated list: empty when the list is empty or its first
entry (`sorted_repos[0]`, holding `max_commits`) has commit count 0. -/
def barRows (maxWidth : ℚ) : List PRepo → List BarEntry
  | [] => []
  | top :: rest =>
    if top.commit_count = 0 then []
    else
      (top :: rest).map
        (fun r =>
          { name := r.name
            barWidth := ((r.commit_count : ℚ) / (top.commit_count : ℚ)) * maxWidth
            commitCount := r.commit_count
            sizeKB := (r.size : ℚ) / 1024
            isPrivate := r.isPrivate })

/-- `create_bar_chart` (`generate.py` lines 64-142): sorts by commit count
descending (stable), keeps the top 10, and returns the empty fragment when
the list is empty or the top commit count is zero; otherwise the bar of
each row is normalized against the top entry of the displayed set. -/
def create_bar_chart (repositories : List PRepo) (maxWidth : ℚ) : List BarEntry :=
  barRows maxWidth ((sortDescBy (fun r => r.commit_count) repositories).take 10)

/-- The number of lit dots of one row of the dot-matrix chart: the code
draws 20 dots `j = 0..19` and gives dot `j` full opacity exactly when
`j / 20 <= normalized`. -/
def litDotCount (normalized : ℚ) : Nat :=
  ((List.range 20).filter (fun j : Nat => (j : ℚ) / 20 ≤ normalized)).length

/-- One row emitted by `create_enhanced_bar_chart`. -/
structure DotEntry where
  name : String
  normalized : ℚ
  litDots : Nat
deriving Repr, DecidableEq

/-- The row-emitting part of `create_enhanced_bar_chart` applied to the
already sorted-and-truncated list. -/
def dotRows : List PRepo → List DotEntry
  | [] => []
  | top :: rest =>
    if top.commit_count = 0 then []
    else
      (top :: rest).map
        (fun r =>
          let normalized : ℚ := (r.commit_count : ℚ) / (top.commit_count : ℚ)
          { name := r.name
            normalized := normalized
            litDots := litDotCount normalized })

/-- `create_enhanced_bar_chart` (`github_stats.py` lines 293-320): sorts by
commit count descending (stable), keeps the top 8, returns the empty
fragment when the list is empty or the top commit count is zero, and
normalizes each row against the top entry of the displayed set. -/
def create_enhanced_bar_chart (repositories : List PRepo) : List DotEntry :=
  dotRows ((sortDescBy (fun r => r.commit_count) repositories).take 8)

/-! ## Composition and pipeline -/

/-- The rendered document of `create_svg` (`generate.py` lines 227-342),
structurally: the fixed chrome is a function of nothing, and every
data-dependent fragment is one of the fields below, so two documents are
byte-identical iff the structures are equal.  The generation timestamp
(`datetime.now().strftime(...)`) is the `timestamp` field. -/
structure SvgDocument where
  width : Nat
  height : Nat
  pie : List PieSlice
  legend : List LegendEntry
  bars : List BarEntry
  timestamp : String
deriving Repr, DecidableEq

/-- `create_svg`: aggregate, sort languages by size descending, render the
three fragments, compose with the fixed 850 by 450 canvas and the
timestamp.  Raises (`none`) exactly when `create_legend` raises. -/
def create_svg (cfg : ExclusionConfig) (repositories : List RawRepo)
    (now : String) : Option SvgDocument :=
  let st := aggregate cfg repositories
  let languages := sortDescBy (fun l => l.size) st.langs
  match create_legend languages with
  | none => none
  | some legend =>
    some
      { width := 850
        height := 450
        pie := create_pie_chart languages
        legend := legend
        bars := create_bar_chart st.repos 85
        timestamp := now }

/-- The observable ingredients of one fetch attempt in `get_github_data`:
the HTTP status code, whether the decoded body carries an `errors` key,
and the repository nodes of a successful response. -/
structure FetchResponse where
  statusCode : Nat
  graphqlErrors : Bool
  nodes : List RawRepo
deriving Repr, DecidableEq

/-- `get_github_data` (`generate.py` lines 49-61): raises on a non-200
status or on a structured GraphQL error payload, otherwise returns the
repository nodes. -/
def get_github_data (resp : FetchResponse) : Except String (List RawRepo) :=
  if resp.statusCode ≠ 200 then
    .error ("GitHub API error: " ++ toString resp.statusCode)
  else if resp.graphqlErrors then .error "GraphQL errors"
  else .ok resp.nodes

/-- The result dictionary of `generate_stats`: the success shape carries
the SVG and the username, the failure shape carries only the error
message (no `svg` key). -/
inductive GenResult where
  | success : SvgDocument → String → GenResult
  | failure : String → GenResult
deriving Repr, DecidableEq

/-- `generate_stats` (`generate.py` lines 345-354): fetch then render,
with every exception of either stage caught and mapped to the failure
shape. -/
def generate_stats (cfg : ExclusionConfig) (resp : FetchResponse)
    (username now : String) : GenResult :=
  match get_github_data resp with
  | .error e => .failure e
  | .ok repositories =>
    match create_svg cfg repositories now with
    | none => .failure "division by zero"
    | some svg => .success svg username

/-! ## Auxiliary definitions used by the specification statements -/

/-- The slices of a pie chart form a chain: the first starts at the given
fraction and every further slice starts where the previous one ended. -/
def chainFrom : ℚ → List PieSlice → Prop
  | _, [] => True
  | a, s :: rest => s.startFrac = a ∧ chainFrom s.endFrac rest

/-- The demo configuration of the C2 example: HTML excluded from the
language aggregate, no repository patterns. -/
def demoCfg : ExclusionConfig := ⟨["html"], []⟩

/-- The demo repository of the C2 example: edges Python 100, HTML 50. -/
def demoRepo : RawRepo :=
  ⟨"demo", false, some 3, [⟨"Python", 100, "#3572A5"⟩, ⟨"HTML", 50, "#e34c26"⟩]⟩

/-- Glob matching exactly as the spec words it: `*` matches zero or more
of any character, there are no other wildcard characters, and comparison
is case-sensitive.  This definition follows the words of the spec and is
compared against the fnmatch behaviour of the code.  Fueled like
`globMatchAux`. -/
def specGlobMatchAux : Nat → List Char → List Char → Bool
  | 0, _, _ => false
  | _ + 1, [], [] => true
  | _ + 1, [], _ :: _ => false
  | fuel + 1, '*' :: ps, [] => specGlobMatchAux fuel ps []
  | fuel + 1, '*' :: ps, c :: s =>
    specGlobMatchAux fuel ps (c :: s) || specGlobMatchAux fuel ('*' :: ps) s
  | _ + 1, _ :: _, [] => false
  | fuel + 1, p :: ps, d :: s => p == d && specGlobMatchAux fuel ps s

def specGlobMatch (name pat : String) : Bool :=
  specGlobMatchAux (pat.length + name.length + 1) pat.toList name.toList

/-! ## Helper lemmas about the aggregation pass -/

/-- The `defaultdict` update adds exactly the size of the folded edge to
the total of the stats table. -/
theorem addEdge_size_sum (ls : List Language) (n : String) (s : Nat) (c : String) :
    ((addEdge ls n s c).map (fun l => l.size)).sum
      = (ls.map (fun l => l.size)).sum + s := by
  induction ls with
  | nil => simp [addEdge]
  | cons l rest ih =>
    by_cases h : l.name = n <;> simp [addEdge, h, ih] <;> omega

/-- Folding the edges of one repository adds exactly the sizes of its
non-excluded-language edges to the total of the stats table. -/
theorem foldEdges_size_sum (excl : List String) (edges : List LangEdge) (ls : List Language) :
    ((foldEdges excl ls edges).map (fun l => l.size)).sum
      = (ls.map (fun l => l.size)).sum
        + ((edges.filter (fun e => !excl.contains (pyLower e.name))).map
            (fun e => e.size)).sum := by
  induction edges generalizing ls with
  | nil => simp [foldEdges]
  | cons e rest ih =>
    rw [foldEdges]
    by_cases h : excl.contains (pyLower e.name)
    · rw [if_pos h, ih]
      have hm : pyLower e.name ∈ excl := by simpa using h
      simp [List.filter_cons, hm]
    · rw [if_neg h, ih, addEdge_size_sum]
      have hm : pyLower e.name ∉ excl := by simpa using h
      simp [List.filter_cons, hm]
      omega

/-- A repository matching an exclusion pattern leaves the loop state
untouched. -/
theorem processRepo_excluded (cfg : ExclusionConfig) (st : AggState) (r : RawRepo)
    (h : isRepositoryExcluded r.name cfg.excludedRepositories = true) :
    processRepo cfg st r = st := by
  simp [processRepo, h]

/-- The `processed_repos` list accumulated by the loop: one
`mkProcessed` entry per surviving repository, in input order. -/
theorem foldl_processRepo_repos (cfg : ExclusionConfig) (repos : List RawRepo) (st : AggState) :
    (repos.foldl (processRepo cfg) st).repos
      = st.repos
        ++ (repos.filter
              (fun r => !isRepositoryExcluded r.name cfg.excludedRepositories)).map
             mkProcessed := by
  induction repos generalizing st with
  | nil => simp
  | cons r rest ih =>
    simp only [List.foldl_cons, List.filter_cons]
    by_cases h : isRepositoryExcluded r.name cfg.excludedRepositories
    · simp [processRepo, h, ih]
    · simp [processRepo, h, ih]

/-- The total of the language stats accumulated by the loop: the sizes of
all non-excluded-language edges of all surviving repositories. -/
theorem foldl_processRepo_langs_sum (cfg : ExclusionConfig) (repos : List RawRepo)
    (st : AggState) :
    (((repos.foldl (processRepo cfg) st).langs).map (fun l => l.size)).sum
      = (st.langs.map (fun l => l.size)).sum
        + (((repos.filter
              (fun r => !isRepositoryExcluded r.name cfg.excludedRepositories)).map
             (fun r =>
               ((r.edges.filter
                   (fun e => !cfg.excludedLanguages.contains (pyLower e.name))).map
                  (fun e => e.size)).sum)).sum) := by
  induction repos generalizing st with
  | nil => simp
  | cons r rest ih =>
    simp only [List.foldl_cons, List.filter_cons]
    by_cases h : isRepositoryExcluded r.name cfg.excludedRepositories
    · simp [processRepo, h, ih]
    · simp [processRepo, h, ih, foldEdges_size_sum]
      omega

/-- Skipped repositories can be dropped from the input without changing
the final loop state. -/
theorem foldl_processRepo_filter (cfg : ExclusionConfig) (repos : List RawRepo) (st : AggState) :
    repos.foldl (processRepo cfg) st
      = (repos.filter
           (fun r => !isRepositoryExcluded r.name cfg.excludedRepositories)).foldl
          (processRepo cfg) st := by
  induction repos generalizing st with
  | nil => rfl
  | cons r rest ih =>
    simp only [List.foldl_cons, List.filter_cons]
    by_cases h : isRepositoryExcluded r.name cfg.excludedRepositories
    · simp [h, processRepo_excluded cfg st r h, ih]
    · simp [h, ih]

/-! ## Claim theorems C1 - C3 -/

/-- C1: for every input repository list and exclusion configuration, the
sum of `LanguageAggregate.totalSize` over all language entries produced by
the aggregation in `create_svg` equals the sum of the byte sizes of all
edges whose lower-cased language name is not excluded, across all
repositories whose name matches no exclusion pattern. -/
theorem language_aggregate_total_size (cfg : ExclusionConfig) (repos : List RawRepo) :
    ((aggregateLanguages cfg repos).map (fun l => l.size)).sum
      = ((repos.filter
            (fun r => !isRepositoryExcluded r.name cfg.excludedRepositories)).map
           (fun r =>
             ((r.edges.filter
                 (fun e => !cfg.excludedLanguages.contains (pyLower e.name))).map
                (fun e => e.size)).sum)).sum := by
  have h := foldl_processRepo_langs_sum cfg repos ⟨[], []⟩
  simpa [aggregateLanguages, aggregate] using h

/-- C2: the `size` of the `ProcessedRepository` entry of every surviving
repository is the sum of byte sizes over ALL of its language edges, including
edges of excluded languages; in particular the demo repository with edges
Python 100 and HTML 50 under an HTML exclusion contributes only
Python 100 to the aggregate yet has `size = 150`. -/
theorem processed_repo_size_all_edges (cfg : ExclusionConfig) (repos : List RawRepo) :
    (processedRepos cfg repos).map (fun p => p.size)
        = ((repos.filter
              (fun r => !isRepositoryExcluded r.name cfg.excludedRepositories)).map
             (fun r => (r.edges.map (fun e => e.size)).sum))
    ∧ aggregateLanguages demoCfg [demoRepo] = [⟨"Python", 100, "#3572A5"⟩]
    ∧ (processedRepos demoCfg [demoRepo]).map (fun p => p.size) = [150] := by
  refine ⟨?_, by decide, by decide⟩
  have h := foldl_processRepo_repos cfg repos ⟨[], []⟩
  simp [processedRepos, aggregate, h, mkProcessed]

/-- C3 counterexample: the pattern `[ab]` matches the repository named
`[ab]` under the glob semantics of the spec (where `[`, `a`, `b`, `]` are
ordinary characters), yet the `fnmatch`-based exclusion of the code treats
`[ab]` as a character class not matching the four-character name, so the
repository still appears in the processed-repository list. -/
theorem repository_exclusion_spec_semantics_counterexample :
    specGlobMatch "[ab]" "[ab]" = true
    ∧ (processedRepos ⟨[], ["[ab]"]⟩ [⟨"[ab]", false, some 1, []⟩]).map
        (fun p => p.name) = ["[ab]"] := by
  constructor
  · decide
  · decide

/-- C3 amended: with pattern matching under Python `fnmatch` semantics
(`*` zero or more characters, `?` exactly one character, `[seq]` and
`[!seq]` character classes, case-sensitive), every repository whose name
matches at least one exclusion pattern contributes nothing to the
aggregation state and no processed entry carries a matching name; with an
empty pattern set no repository is excluded. -/
theorem repository_exclusion_fnmatch (cfg : ExclusionConfig) (repos : List RawRepo) :
    aggregate cfg repos
        = aggregate cfg
            (repos.filter
              (fun r => !isRepositoryExcluded r.name cfg.excludedRepositories))
    ∧ (processedRepos cfg repos).all
        (fun p => !isRepositoryExcluded p.name cfg.excludedRepositories) = true
    ∧ (processedRepos ⟨cfg.excludedLanguages, []⟩ repos).map (fun p => p.name)
        = repos.map (fun r => r.name) := by
  refine ⟨?_, ?_, ?_⟩
  · have h := foldl_processRepo_filter cfg repos ⟨[], []⟩
    simpa [aggregate, List.filter_filter] using h
  · have h := foldl_processRepo_repos cfg repos ⟨[], []⟩
    simp only [processedRepos, aggregate, h, List.nil_append, List.all_eq_true]
    intro p hp
    obtain ⟨r, hr, rfl⟩ := List.mem_map.mp hp
    have hr2 := List.of_mem_filter hr
    simpa [mkProcessed] using hr2
  · have h := foldl_processRepo_repos ⟨cfg.excludedLanguages, []⟩ repos ⟨[], []⟩
    simp [processedRepos, aggregate, h, isRepositoryExcluded, mkProcessed]

/-! ## Helper lemmas about the stable descending sort -/

theorem mem_insertDescBy {key : α → Nat} {a x : α} {l : List α} :
    x ∈ insertDescBy key a l ↔ x = a ∨ x ∈ l := by
  induction l with
  | nil => simp [insertDescBy]
  | cons b bs ih =>
    by_cases hba : key b ≤ key a <;> simp [insertDescBy, hba, ih]
    tauto

theorem mem_sortDescBy {key : α → Nat} {x : α} {l : List α} :
    x ∈ sortDescBy key l ↔ x ∈ l := by
  induction l with
  | nil => simp [sortDescBy]
  | cons a as ih =>
    show x ∈ insertDescBy key a (sortDescBy key as) ↔ _
    rw [mem_insertDescBy, ih]
    simp

theorem insertDescBy_pairwise (key : α → Nat) (a : α) (l : List α)
    (h : l.Pairwise (fun x y => key y ≤ key x)) :
    (insertDescBy key a l).Pairwise (fun x y => key y ≤ key x) := by
  induction l with
  | nil => simp [insertDescBy]
  | cons b bs ih =>
    rw [List.pairwise_cons] at h
    by_cases hba : key b ≤ key a
    · rw [insertDescBy, if_pos hba]
      refine List.Pairwise.cons ?_ (List.Pairwise.cons h.1 h.2)
      intro x hx
      rcases List.mem_cons.mp hx with rfl | hx2
      · exact hba
      · exact le_trans (h.1 x hx2) hba
    · rw [insertDescBy, if_neg hba]
      have hab : key a ≤ key b := le_of_lt (Nat.lt_of_not_le hba)
      refine List.Pairwise.cons ?_ (ih h.2)
      intro x hx
      rcases mem_insertDescBy.mp hx with rfl | hx2
      · exact hab
      · exact h.1 x hx2

theorem sortDescBy_pairwise (key : α → Nat) (l : List α) :
    (sortDescBy key l).Pairwise (fun x y => key y ≤ key x) := by
  induction l with
  | nil => simp [sortDescBy]
  | cons a as ih => exact insertDescBy_pairwise key a _ ih

/-- Inserting never reorders the entries already present, and the new
entry lands before every present entry with the same key. -/
theorem filter_insertDescBy (key : α → Nat) (c : Nat) (a : α) (l : List α) :
    (insertDescBy key a l).filter (fun x => key x == c)
      = if key a == c then a :: l.filter (fun x => key x == c)
        else l.filter (fun x => key x == c) := by
  induction l with
  | nil =>
    by_cases hac : key a = c <;> simp [insertDescBy, List.filter_cons, hac]
  | cons b bs ih =>
    by_cases hba : key b ≤ key a
    · rw [insertDescBy, if_pos hba]
      by_cases hac : key a = c <;> simp [List.filter_cons, hac]
    · rw [insertDescBy, if_neg hba]
      have hab : key a < key b := Nat.lt_of_not_le hba
      by_cases hbc : key b = c
      · have hac : ¬ key a = c := by omega
        simp [List.filter_cons, hbc, hac, ih]
      · by_cases hac : key a = c <;> simp [List.filter_cons, hbc, hac, ih]

theorem sortDescBy_filter (key : α → Nat) (c : Nat) (l : List α) :
    (sortDescBy key l).filter (fun x => key x == c)
      = l.filter (fun x => key x == c) := by
  induction l with
  | nil => rfl
  | cons a as ih =>
    show (insertDescBy key a (sortDescBy key as)).filter _ = _
    rw [filter_insertDescBy]
    by_cases hac : key a = c <;> simp [List.filter_cons, hac, ih]

/-- C9: the ranking computed inside `create_bar_chart` (sorting the
processed repositories by commit count before the top-10 truncation) is
ordered by descending commit count, and for every commit-count value the
entries carrying it appear in their original relative order (stability of
Python `sorted` with `reverse=True`). -/
theorem bar_chart_ranking_sorted_and_stable (repos : List PRepo) :
    (sortDescBy (fun r => r.commit_count) repos).Pairwise
        (fun a b => b.commit_count ≤ a.commit_count)
    ∧ (∀ c : Nat,
        (sortDescBy (fun r => r.commit_count) repos).filter
            (fun r => r.commit_count == c)
          = repos.filter (fun r => r.commit_count == c))
    ∧ create_bar_chart repos 85
        = barRows 85 ((sortDescBy (fun r => r.commit_count) repos).take 10) :=
  ⟨sortDescBy_pairwise _ _, fun c => sortDescBy_filter _ c _, rfl⟩

/-! ## Helper lemmas about the pie chart -/

theorem pieSlicesAux_chain (total : Nat) (ls : List Language) (start : ℚ) :
    chainFrom start (pieSlicesAux total ls start) := by
  induction ls generalizing start with
  | nil => trivial
  | cons l rest ih => exact ⟨rfl, ih _⟩

theorem pieSlicesAux_map_angle (total : Nat) (ls : List Language) (start : ℚ) :
    (pieSlicesAux total ls start).map sliceAngle
      = ls.map (fun l => 2 * Real.pi * (((l.size : ℚ) / (total : ℚ) : ℚ) : ℝ)) := by
  induction ls generalizing start with
  | nil => rfl
  | cons l rest ih =>
    simp only [pieSlicesAux, List.map_cons, ih, sliceAngle]
    congr 1
    push_cast
    ring

theorem pieSlicesAux_angle_sum (total : Nat) (ls : List Language) (start : ℚ) :
    ((pieSlicesAux total ls start).map sliceAngle).sum
      = (((((ls.map (fun l => l.size)).sum : Nat) : ℚ) / (total : ℚ) : ℚ) : ℝ)
          * (2 * Real.pi) := by
  induction ls generalizing start with
  | nil => simp [pieSlicesAux]
  | cons l rest ih =>
    simp only [pieSlicesAux, List.map_cons, List.sum_cons, ih, sliceAngle,
      List.map_cons, List.sum_cons]
    push_cast
    ring

/-- C4: for every language list with positive total size, the slices of
`create_pie_chart` have angles `2π · size/total` in language order, are
drawn consecutively from angle 0 with each start equal to the previous
end, and their angles sum to exactly `2π`; with total size 0 the chart is
the empty fragment. -/
theorem pie_chart_angles (languages : List Language) :
    ((languages.map (fun l => l.size)).sum ≠ 0 →
      (create_pie_chart languages).map sliceAngle
          = languages.map
              (fun l =>
                2 * Real.pi
                  * (((l.size : ℚ)
                        / (((languages.map (fun x => x.size)).sum : Nat) : ℚ) : ℚ) : ℝ))
      ∧ chainFrom 0 (create_pie_chart languages)
      ∧ ((create_pie_chart languages).map sliceAngle).sum = 2 * Real.pi)
    ∧ ((languages.map (fun l => l.size)).sum = 0 → create_pie_chart languages = []) := by
  constructor
  · intro h
    rw [create_pie_chart]
    rw [if_neg h]
    refine ⟨pieSlicesAux_map_angle _ _ _, pieSlicesAux_chain _ _ _, ?_⟩
    rw [pieSlicesAux_angle_sum]
    have hq : (((languages.map (fun l => l.size)).sum : Nat) : ℚ) ≠ 0 :=
      Nat.cast_ne_zero.mpr h
    rw [div_self hq]
    push_cast
    ring
  · intro h
    rw [create_pie_chart, if_pos h]

/-- Witness for C4 at the concrete language list `[A 1, B 1]`. -/
theorem pie_chart_angles_witness :
    (([⟨"A", 1, "#111111"⟩, ⟨"B", 1, "#222222"⟩] : List Language).map
        (fun l => l.size)).sum ≠ 0
    ∧ ((create_pie_chart [⟨"A", 1, "#111111"⟩, ⟨"B", 1, "#222222"⟩]).map
        sliceAngle).sum = 2 * Real.pi := by
  have h : (([⟨"A", 1, "#111111"⟩, ⟨"B", 1, "#222222"⟩] : List Language).map
      (fun l => l.size)).sum ≠ 0 := by decide
  exact ⟨h, ((pie_chart_angles [⟨"A", 1, "#111111"⟩, ⟨"B", 1, "#222222"⟩]).1 h).2.2⟩

/-! ## Claim theorems C5 - C8 and C10 -/

/-- C5 counterexample: `create_legend` divides by the total size without a
zero guard, so on the one-language list with size 0 it raises
`ZeroDivisionError` (modelled by `none`) instead of degrading to an empty
fragment. -/
theorem create_legend_zero_division_counterexample :
    create_legend [⟨"X", 0, "#000000"⟩] = none := by
  simp [create_legend, pydiv, List.mapM.loop]

/-- C5 amended: `create_pie_chart` and `create_bar_chart` degrade to the
empty fragment on an empty input or a zero normalizing denominator, and
`create_legend` degrades to the empty fragment on the empty language
list, but on a NON-empty language list with zero total size
`create_legend` raises `ZeroDivisionError` rather than returning an empty
fragment. -/
theorem renderer_empty_input_degeneracy (languages : List Language)
    (repositories : List PRepo) (maxWidth : ℚ) :
    ((languages.map (fun l => l.size)).sum = 0 → create_pie_chart languages = [])
    ∧ (repositories.all (fun r => r.commit_count == 0) = true →
        create_bar_chart repositories maxWidth = [])
    ∧ create_legend [] = some []
    ∧ (languages ≠ [] → (languages.map (fun l => l.size)).sum = 0 →
        create_legend languages = none) := by
  refine ⟨?_, ?_, rfl, ?_⟩
  · intro h
    rw [create_pie_chart, if_pos h]
  · intro hall
    rw [create_bar_chart]
    cases hs : (sortDescBy (fun r => r.commit_count) repositories).take 10 with
    | nil => rfl
    | cons top rest =>
      have htop : top ∈ repositories := by
        have h1 : top ∈ (sortDescBy (fun r => r.commit_count) repositories).take 10 := by
          rw [hs]; exact List.mem_cons_self _ _
        exact mem_sortDescBy.mp (List.take_subset _ _ h1)
      have h0 : top.commit_count = 0 := by
        have := List.all_eq_true.mp hall top htop
        simpa using this
      rw [barRows, if_pos h0]
  · intro hne h0
    cases languages with
    | nil => exact absurd rfl hne
    | cons l rest =>
      have hq : (l.size : ℚ) + (rest.map (fun x => (x.size : ℚ))).sum = 0 := by
        have h1 : ((((l :: rest).map (fun x => x.size)).sum : Nat) : ℚ) = 0 := by
          rw [h0]
          norm_num
        rw [Nat.cast_list_sum] at h1
        simpa [List.map_map, Function.comp] using h1
      simp [create_legend, pydiv, hq, List.mapM.loop]

/-- Witness for C5 at concrete degenerate inputs. -/
theorem renderer_empty_input_degeneracy_witness :
    create_pie_chart [⟨"Y", 0, "#111111"⟩] = []
    ∧ create_bar_chart [⟨"r", 0, 0, false⟩] 85 = []
    ∧ create_legend [] = some []
    ∧ create_legend [⟨"Y", 0, "#111111"⟩] = none := by
  obtain ⟨h1, h2, h3, h4⟩ :=
    renderer_empty_input_degeneracy [⟨"Y", 0, "#111111"⟩] [⟨"r", 0, 0, false⟩] 85
  exact ⟨h1 (by decide), h2 (by decide), h3, h4 (by decide) (by decide)⟩

/-- For a row normalized as `c / m` with positive `m`, the lit-dot count
can be computed over the naturals: dot j lights iff `j * m <= c * 20`. -/
theorem litDotCount_div_nat (c m : Nat) (hm : 0 < m) :
    litDotCount ((c : ℚ) / (m : ℚ))
      = ((List.range 20).filter (fun j => j * m ≤ c * 20)).length := by
  unfold litDotCount
  refine congrArg List.length (List.filter_congr ?_)
  intro j hj
  rw [decide_eq_decide]
  have hm20 : (0 : ℚ) < 20 := by norm_num
  have hmq : (0 : ℚ) < (m : ℚ) := by exact_mod_cast hm
  rw [div_le_div_iff₀ hm20 hmq]
  exact_mod_cast Iff.rfl

theorem litDotCount_one : litDotCount (1 : ℚ) = 20 := by
  have hc : (1 : ℚ) = ((1 : Nat) : ℚ) / ((1 : Nat) : ℚ) := by norm_num
  rw [hc, litDotCount_div_nat 1 1 (by norm_num)]
  decide

theorem litDotCount_zero : litDotCount (0 : ℚ) = 1 := by
  have hc : (0 : ℚ) = ((0 : Nat) : ℚ) / ((1 : Nat) : ℚ) := by norm_num
  rw [hc, litDotCount_div_nat 0 1 (by norm_num)]
  decide

theorem litDotCount_quarter : litDotCount ((10 : ℚ) / (40 : ℚ)) = 6 := by
  have hc : (10 : ℚ) / (40 : ℚ) = ((10 : Nat) : ℚ) / ((40 : Nat) : ℚ) := by norm_num
  rw [hc, litDotCount_div_nat 10 40 (by norm_num)]
  decide

/-- C6 counterexample: for the displayed set with commit counts 40 and 10
the dot-matrix rows light 20 and 6 dots, not the 20 and 5 dots the claim
predicts (dot j lights when `j/20 <= normalized`, so for 0.25 the dots
j = 0..5 light). -/
theorem dot_count_quarter_counterexample :
    (create_enhanced_bar_chart
        [⟨"alpha", 40, 0, false⟩, ⟨"beta", 10, 0, false⟩]).map (fun e => e.litDots)
        = [20, 6]
    ∧ (create_enhanced_bar_chart
        [⟨"alpha", 40, 0, false⟩, ⟨"beta", 10, 0, false⟩]).map (fun e => e.litDots)
        ≠ [20, 5] := by
  have h : (create_enhanced_bar_chart
      [⟨"alpha", 40, 0, false⟩, ⟨"beta", 10, 0, false⟩]).map (fun e => e.litDots)
      = [20, 6] := by
    rw [create_enhanced_bar_chart]
    simp [sortDescBy, insertDescBy, dotRows, litDotCount_one, litDotCount_quarter]
  refine ⟨h, ?_⟩
  rw [h]
  simp

/-- C6 amended: for a displayed set of two repositories with commit
counts 40 and 10, the bar lengths are exactly 1.0 and 0.25 of the maximum
bar width, and the dot rows light 20 and 6 of the 20-dot budget (a dot at
index j lights when `j/20 <= normalized`, so a row with normalized value
v lights `min 20 (⌊20·v⌋ + 1)` dots: 6 for v = 0.25, not 5),
normalization being against the top entry of the displayed set. -/
theorem bar_and_dot_normalization (n1 n2 : String) (s1 s2 : Nat) (p1 p2 : Bool)
    (w : ℚ) :
    (create_bar_chart [⟨n1, 40, s1, p1⟩, ⟨n2, 10, s2, p2⟩] w).map
        (fun e => e.barWidth) = [1 * w, (1 / 4) * w]
    ∧ (create_enhanced_bar_chart [⟨n1, 40, s1, p1⟩, ⟨n2, 10, s2, p2⟩]).map
        (fun e => e.litDots) = [20, 6] := by
  constructor
  · rw [create_bar_chart]
    norm_num [sortDescBy, insertDescBy, barRows]
  · rw [create_enhanced_bar_chart]
    simp [sortDescBy, insertDescBy, dotRows, litDotCount_one, litDotCount_quarter]

/-- C7: two runs of `create_svg` on identical repository data and
configuration, differing only in the generation timestamp, produce
documents equal in every field other than the timestamp. -/
theorem create_svg_deterministic_modulo_timestamp (cfg : ExclusionConfig)
    (repositories : List RawRepo) (t1 t2 : String) :
    (create_svg cfg repositories t1).map (fun d => { d with timestamp := "" })
      = (create_svg cfg repositories t2).map (fun d => { d with timestamp := "" }) := by
  simp only [create_svg]
  cases create_legend
      (sortDescBy (fun l => l.size) (aggregate cfg repositories).langs) <;> rfl

/-- C8: whenever the fetch stage fails (non-200 HTTP status or a
structured GraphQL error payload), `generate_stats` returns the failure
shape, which carries an error message and no rendered document. -/
theorem fetch_failure_yields_failure_result (cfg : ExclusionConfig)
    (resp : FetchResponse) (username now : String)
    (h : resp.statusCode ≠ 200 ∨ resp.graphqlErrors = true) :
    ∃ e, generate_stats cfg resp username now = .failure e := by
  rw [generate_stats, get_github_data]
  rcases h with h | h
  · rw [if_pos h]
    exact ⟨_, rfl⟩
  · by_cases h2 : resp.statusCode ≠ 200
    · rw [if_pos h2]
      exact ⟨_, rfl⟩
    · rw [if_neg h2, if_pos h]
      exact ⟨_, rfl⟩

/-- Witness for C8 at a concrete HTTP 500 response. -/
theorem fetch_failure_yields_failure_result_witness :
    (500 ≠ 200 ∨ false = true)
    ∧ ∃ e,
        generate_stats defaultConfig ⟨500, false, []⟩ "kengo-k" "2026-10-12 00:00"
          = .failure e :=
  ⟨Or.inl (by decide),
    fetch_failure_yields_failure_result defaultConfig ⟨500, false, []⟩
      "kengo-k" "2026-10-12 00:00" (Or.inl (by decide))⟩

/-- Every row of the dot-matrix body has at least one lit dot, because
`0/20 <= normalized` for every non-negative normalized value. -/
theorem one_le_litDots_of_mem_dotRows {l : List PRepo} {e : DotEntry}
    (h : e ∈ dotRows l) : 1 ≤ e.litDots := by
  match l with
  | [] => simp [dotRows] at h
  | top :: rest =>
    rw [dotRows] at h
    by_cases h0 : top.commit_count = 0
    · rw [if_pos h0] at h
      simp at h
    · rw [if_neg h0] at h
      obtain ⟨r, _, rfl⟩ := List.mem_map.mp h
      have hv : (0 : ℚ) ≤ (r.commit_count : ℚ) / (top.commit_count : ℚ) :=
        div_nonneg (Nat.cast_nonneg _) (Nat.cast_nonneg _)
      show 1 ≤ litDotCount _
      rw [litDotCount]
      refine List.length_pos_of_mem (a := (0 : Nat)) ?_
      rw [List.mem_filter]
      refine ⟨by simp, ?_⟩
      simpa using hv

/-- C10: whenever the dot-matrix chart of `create_enhanced_bar_chart` is
non-empty, every displayed repository row lights at least one dot — also
rows whose own commit count is 0 — since the dot at index 0 satisfies
`0/20 <= normalized` for every non-negative normalized value. -/
theorem dot_matrix_every_row_lit (repositories : List PRepo) (e : DotEntry)
    (h : e ∈ create_enhanced_bar_chart repositories) : 1 ≤ e.litDots := by
  rw [create_enhanced_bar_chart] at h
  exact one_le_litDots_of_mem_dotRows h

/-- Witness for C10: a displayed set whose second repository has commit
count 0 still lights one dot in its row. -/
theorem dot_matrix_every_row_lit_witness :
    (⟨"idle", 0, 1⟩ : DotEntry)
        ∈ create_enhanced_bar_chart
            [⟨"busy", 5, 0, false⟩, ⟨"idle", 0, 0, false⟩]
    ∧ 1 ≤ (⟨"idle", 0, 1⟩ : DotEntry).litDots := by
  have hm : (⟨"idle", 0, 1⟩ : DotEntry)
      ∈ create_enhanced_bar_chart
          [⟨"busy", 5, 0, false⟩, ⟨"idle", 0, 0, false⟩] := by
    rw [create_enhanced_bar_chart]
    simp [sortDescBy, insertDescBy, dotRows, litDotCount_one, litDotCount_zero]
  exact ⟨hm,
    dot_matrix_every_row_lit [⟨"busy", 5, 0, false⟩, ⟨"idle", 0, 0, false⟩] _ hm⟩

end GithubStats
